import Mathlib

/-!
Verification of the custom-proton-updater program (src/updater.py) against its
natural-language specification. Python values and control flow are embedded
shallowly: strings are `String` or `List Char`, filesystem paths are `List Char`,
early-return loops become structural recursion, and raised exceptions become
`Except` values or explicit outcome records.
-/

namespace Updater

/-- Embeds class ProtonVersion (src/updater.py lines 14-17): a release name plus
a download URL. -/
structure ProtonVersion where
  name : String
  url : String
deriving DecidableEq, Repr

/-- Embeds Updater.check_update_available (src/updater.py lines 52-57): the loop
returns False at the first installed version whose name equals the available
version's name, and True when the loop finishes. -/
def check_update_available : List ProtonVersion → ProtonVersion → Bool
  | [], _ => true
  | v :: rest, available =>
      if v.name == available.name then false
      else check_update_available rest available

/-- Embeds the Python comparison `f == self.available_version` at
src/updater.py line 107: `f` is a str (a directory-entry name) and
`self.available_version` a ProtonVersion instance. ProtonVersion defines no
__eq__, so Python falls back to the default identity comparison, and a str
object is never the same object as a ProtonVersion instance: the comparison
is False for every pair of arguments. -/
def pyEq_str_ProtonVersion (_f : String) (_v : ProtonVersion) : Bool := false

/-- Embeds Updater.cleanup_old_versions (src/updater.py lines 105-109) on the
list of directory entries of steam_compat_dir: returns (entries removed by
os.remove, entries skipped by the `continue`). -/
def cleanup_old_versions (entries : List String) (available : ProtonVersion) :
    List String × List String :=
  (entries.filter (fun f => !pyEq_str_ProtonVersion f available),
   entries.filter (fun f => pyEq_str_ProtonVersion f available))

/-! ### Path handling: os.path.join / abspath / commonprefix

The source's traversal check (src/updater.py lines 84-98) is built from POSIX
path-string operations; they are embedded here over `List Char`. -/

/-- True when the path begins with the POSIX separator. -/
def startsWithSlash : List Char → Bool
  | '/' :: _ => true
  | _ => false

/-- Embeds os.path.join (POSIX) for two arguments as used at src/updater.py
line 96: an absolute second argument replaces the first; otherwise a separator
is inserted unless the first argument is empty or already ends in one. -/
def pyJoin (a b : List Char) : List Char :=
  if startsWithSlash b then b
  else if a = [] ∨ a.getLast? = some '/' then a ++ b
  else a ++ '/' :: b

/-- Splits a path on the separator character, keeping empty components, as
CPython's posixpath normalisation does. -/
def splitSlash : List Char → List (List Char)
  | [] => [[]]
  | c :: rest =>
      if c = '/' then [] :: splitSlash rest
      else
        match splitSlash rest with
        | h :: t => (c :: h) :: t
        | [] => [[c]]

/-- The component pass of os.path.normpath for an absolute path: empty and "."
components vanish, ".." pops the previously kept component (and vanishes at the
root), every other component is kept in order. -/
def normStack : List (List Char) → List (List Char) → List (List Char)
  | [], acc => acc.reverse
  | c :: rest, acc =>
      if c = [] ∨ c = ['.'] then normStack rest acc
      else if c = ['.', '.'] then normStack rest acc.tail
      else normStack rest (c :: acc)

/-- Rejoins normalised components with the separator. -/
def joinComps : List (List Char) → List Char
  | [] => []
  | [c] => c
  | c :: rest => c ++ '/' :: joinComps rest

/-- Embeds os.path.abspath as the source applies it (src/updater.py lines
86-87): both arguments it receives are absolute (steam_compat_dir is absolute
and os.path.join keeps absoluteness), so abspath reduces to os.path.normpath of
an absolute path. -/
def abspath (p : List Char) : List Char :=
  '/' :: joinComps (normStack (splitSlash p) [])

/-- Embeds os.path.commonprefix of two strings (src/updater.py line 89): the
longest common CHARACTER prefix — a plain string operation that ignores
component boundaries. -/
def commonPrefixChars : List Char → List Char → List Char
  | x :: xs, y :: ys => if x = y then x :: commonPrefixChars xs ys else []
  | _, _ => []

/-- Embeds is_within_directory (src/updater.py lines 84-91): true iff the
character-wise common prefix of the two absolutised paths equals the
directory. -/
def is_within_directory (directory target : List Char) : Bool :=
  let abs_directory := abspath directory
  let abs_target := abspath target
  commonPrefixChars abs_directory abs_target == abs_directory

/-- The member loop of safe_extract (src/updater.py lines 95-98): false at the
first member whose joined path fails is_within_directory. -/
def safe_extract_check (path : List Char) : List (List Char) → Bool
  | [] => true
  | m :: rest =>
      if is_within_directory path (pyJoin path m) then safe_extract_check path rest
      else false

/-- Embeds safe_extract (src/updater.py lines 93-103) over the archive's member
names: when every member passes the check, tar.extractall writes every member
at its joined path; otherwise the plain Exception "Attempted Path Traversal in
Tar File" is raised before anything is written. -/
def safe_extract (members : List (List Char)) (path : List Char) :
    Except String (List (List Char)) :=
  if safe_extract_check path members then .ok (members.map (pyJoin path))
  else .error "Attempted Path Traversal in Tar File"

/-- Modelled from the spec: an entry's resolved target path "remains within the
target directory" when, after normalisation, it equals the directory or lies
strictly below it (component-aware: the directory followed by a separator is a
prefix of the target). This is the yardstick the safety claim measures
is_within_directory against. -/
def resolvedWithinDir (directory target : List Char) : Bool :=
  let d := abspath directory
  let t := abspath target
  t == d || (d ++ ['/']).isPrefixOf t

/-! ### The unpack/rollback phase of do_update -/

/-- The exceptions the unpack step can raise (src/updater.py lines 82-103): the
traversal check raises a plain builtins.Exception; tarfile.open raises
tarfile.ReadError on a corrupt archive; tar.extractall raises OSError on a disk
error and tarfile.ExtractError for non-fatal member failures. -/
inductive UnpackExc
  | plainTraversalExc
  | tarReadError
  | tarExtractError
  | osError
deriving DecidableEq, Repr

/-- The handler `except tarfile.ExtractError` (src/updater.py line 130) catches
exactly tarfile.ExtractError: builtins.Exception, tarfile.ReadError and OSError
are not subclasses of tarfile.ExtractError. -/
def caughtByHandler : UnpackExc → Bool
  | .tarExtractError => true
  | _ => false

/-- Observable state after do_update's unpack step: what the except block
removed, whether the final "Done, updated proton version" print ran, and which
exception (if any) propagated out of do_update. -/
structure ExtractPhase where
  removedPartialDir : Bool
  removedStagedArchive : Bool
  printedDoneMessage : Bool
  uncaughtExc : Option UnpackExc
deriving DecidableEq, Repr

/-- Embeds do_update's unpack/rollback sequence (src/updater.py lines 127-137),
indexed by how unpack_update ended: success falls through to the Done print; a
caught exception triggers shutil.rmtree and os.remove and THEN still falls
through to the Done print; an uncaught exception propagates with no removal and
no print. -/
def do_update_extract_phase : Option UnpackExc → ExtractPhase
  | none => ⟨false, false, true, none⟩
  | some e =>
      if caughtByHandler e then ⟨true, true, true, none⟩
      else ⟨false, false, false, some e⟩

/-! ### The confirmation prompt of do_update -/

/-- Embeds str.lower character-wise (the prompt only compares the result
against the ASCII strings "y" and ""). -/
def pyLower (s : List Char) : List Char := s.map Char.toLower

/-- The prompt test of do_update (src/updater.py lines 121-123): execution
continues past `if yes_no.lower() not in ["y", ""]: return` iff the lowercased
reply is a member of ["y", ""]. -/
def confirmationAccepted (reply : List Char) : Bool :=
  [['y'], ([] : List Char)].contains (pyLower reply)

/-- The effectful steps of do_update after the prompt (src/updater.py lines
121-129). -/
inductive UpdateStep
  | fetchStep
  | unpackStep
deriving DecidableEq, Repr

/-- Embeds the tail of do_update (src/updater.py lines 121-129): fetch_update
and unpack_update run only when the confirmation test passes; otherwise the
method returns at once. -/
def do_update_steps_after_prompt (reply : List Char) : List UpdateStep :=
  if confirmationAccepted reply then [.fetchStep, .unpackStep] else []

/-! ### fetch_update -/

/-- The environment a fetch_update call runs in: whether an archive for the
candidate's name is already staged in tmpdir with size matching the advertised
content length, and the response's Content-length header. The source never
inspects the staging directory; the first field only expresses the claims'
preconditions. -/
structure FetchEnv where
  stagedArchivePresent : Bool
  contentLength : Option Nat
deriving DecidableEq, Repr

/-- The observable I/O of fetch_update. -/
inductive FetchEvent
  | httpGet (url : String)
  | writeArchive (path : String)
deriving DecidableEq, Repr

/-- Embeds Updater.fetch_update (src/updater.py lines 59-80): requests.get is
issued unconditionally on the version's url; when the Content-length header is
absent, int(r.headers.get("Content-length", -1)) is -1 and the function raises
"Could not get conent size" [sic] without writing; otherwise the body is
streamed to tmpdir/<version.name> and that path returned. The first component
lists the I/O events in order. -/
def fetch_update (version : ProtonVersion) (tmpdir : String) (env : FetchEnv) :
    List FetchEvent × Except String String :=
  let path := tmpdir ++ "/" ++ version.name
  match env.contentLength with
  | none => ([.httpGet version.url], .error "Could not get conent size")
  | some _ => ([.httpGet version.url, .writeArchive path], .ok path)

/-! ### str.strip(".tar.gz") and get_latest -/

/-- The character set Python's str.strip(".tar.gz") works with: strip removes
leading and trailing characters drawn from this SET, not the literal suffix. -/
def tarGzChars : List Char := ['.', 't', 'a', 'r', 'g', 'z']

/-- Membership in the strip set. -/
def inTarGzChars (c : Char) : Bool := tarGzChars.contains c

/-- The leading half of str.strip(chars): drop the longest run of set
characters from the front. -/
def stripLeft (p : Char → Bool) (l : List Char) : List Char := l.dropWhile p

/-- The trailing half of str.strip(chars): drop the longest run of set
characters from the back. -/
def stripRight (p : Char → Bool) (l : List Char) : List Char :=
  (l.reverse.dropWhile p).reverse

/-- Embeds Python str.strip(chars): set characters are removed from both
ends. -/
def pyStrip (p : Char → Bool) (l : List Char) : List Char :=
  stripLeft p (stripRight p l)

/-- name.strip(".tar.gz") at src/updater.py line 50. -/
def stripTarGz (l : List Char) : List Char := pyStrip inTarGzChars l

/-- The characters of the literal suffix ".tar.gz" (each is in the strip
set). -/
def tarGzSuffix : List Char := ['.', 't', 'a', 'r', '.', 'g', 'z']

/-- Embeds Python's substring test `"tar.gz" in name`. -/
def containsSub (needle : List Char) : List Char → Bool
  | [] => needle.isEmpty
  | c :: rest => needle.isPrefixOf (c :: rest) || containsSub needle rest

/-- A release asset as get_latest reads it from the feed response: the fields
"name" and "browser_download_url". -/
structure Asset where
  name : String
  browser_download_url : String
deriving DecidableEq, Repr

/-- How get_latest (src/updater.py lines 39-50) can fail: when no asset's name
contains "tar.gz", the locals `name` and `url` are never assigned and the read
of `url` at `if not url:` raises UnboundLocalError; when the selected url is
the empty string (falsy), the explicit raise Exception("Failed to find tarball
url") fires. -/
inductive GetLatestExc
  | unboundLocalError
  | failedToFindTarballUrl
deriving DecidableEq, Repr

/-- The asset loop of get_latest (src/updater.py lines 42-45): after the loop,
`name` and `url` hold the fields of the LAST asset whose name contains
"tar.gz", or remain unbound when no asset matches. -/
def lastTarGzAsset (assets : List Asset) : Option Asset :=
  assets.foldl
    (fun acc a => if containsSub "tar.gz".data a.name.data then some a else acc)
    none

/-- Embeds Updater.get_latest (src/updater.py lines 39-50) over the decoded
asset list of the feed response. -/
def get_latest (assets : List Asset) : Except GetLatestExc ProtonVersion :=
  match lastTarGzAsset assets with
  | none => .error .unboundLocalError
  | some a =>
      if a.browser_download_url = "" then .error .failedToFindTarballUrl
      else .ok ⟨⟨stripTarGz a.name.data⟩, a.browser_download_url⟩

/-! ### Version comparison (modelled from the spec) -/

/-- Modelled from the spec: the element comparison compare(a,b) uses — the
repository's code has no version-comparison routine at all (ProtonVersion
carries only a name and a url, and update decisions compare names), so the
Version Model's `compare` is taken from §4.1 of the spec. -/
def natCompare (a b : Nat) : Ordering :=
  if a < b then .lt else if b < a then .gt else .eq

/-- Modelled from the spec: comparison of the elements the shorter numeric
component is missing — each "compares as 0" against what remains of the longer
one. -/
def vcompareZeros : List Nat → Ordering
  | [] => .eq
  | y :: ys =>
      match natCompare 0 y with
      | .eq => vcompareZeros ys
      | o => o

/-- Modelled from the spec: "compare(a, b) returns less/equal/greater using
element-wise comparison of the numeric component; missing trailing elements
compare as 0". The code has no such routine; this follows the spec's words. -/
def vcompare : List Nat → List Nat → Ordering
  | [], ys => vcompareZeros ys
  | x :: xs, [] =>
      match natCompare x 0 with
      | .eq => vcompare xs []
      | o => o
  | x :: xs, y :: ys =>
      match natCompare x y with
      | .eq => vcompare xs ys
      | o => o

end Updater

namespace Updater

/-! ### Helper lemmas -/

theorem len_dropWhile_le (p : α → Bool) : ∀ l : List α, (l.dropWhile p).length ≤ l.length
  | [] => Nat.le_refl _
  | c :: t => by
      by_cases h : p c = true
      · simp only [List.dropWhile, h]
        exact Nat.le_trans (len_dropWhile_le p t) (Nat.le_succ _)
      · simp only [List.dropWhile, h]
        exact Nat.le_refl _

theorem dropWhile_append_all (p : α → Bool) (a b : List α)
    (h : ∀ x ∈ a, p x = true) : (a ++ b).dropWhile p = b.dropWhile p := by
  induction a with
  | nil => rfl
  | cons c t ih =>
      have hc : p c = true := h c (List.mem_cons_self c t)
      simp only [List.cons_append, List.dropWhile, hc]
      exact ih fun x hx => h x (List.mem_cons_of_mem c hx)

theorem dropWhile_eq_or_len_lt (p : α → Bool) (l : List α) :
    l.dropWhile p = l ∨ (l.dropWhile p).length < l.length := by
  cases l with
  | nil => exact Or.inl rfl
  | cons c t =>
      by_cases h : p c = true
      · refine Or.inr ?_
        rw [List.dropWhile_cons, if_pos h]
        exact Nat.lt_succ_of_le (len_dropWhile_le p t)
      · rw [List.dropWhile_cons, if_neg h]
        exact Or.inl rfl

theorem len_stripRight_le (p : Char → Bool) (l : List Char) :
    (stripRight p l).length ≤ l.length := by
  unfold stripRight
  rw [List.length_reverse]
  calc (l.reverse.dropWhile p).length ≤ l.reverse.length := len_dropWhile_le p _
    _ = l.length := List.length_reverse l

theorem stripRight_append_all (p : Char → Bool) (s suf : List Char)
    (h : ∀ x ∈ suf, p x = true) : stripRight p (s ++ suf) = stripRight p s := by
  unfold stripRight
  rw [List.reverse_append,
    dropWhile_append_all p suf.reverse s.reverse
      (fun x hx => h x (List.mem_reverse.mp hx))]

theorem stripRight_eq_or_len_lt (p : Char → Bool) (l : List Char) :
    stripRight p l = l ∨ (stripRight p l).length < l.length := by
  rcases dropWhile_eq_or_len_lt p l.reverse with h | h
  · left
    unfold stripRight
    rw [h, List.reverse_reverse]
  · right
    unfold stripRight
    rw [List.length_reverse]
    exact lt_of_lt_of_le h (le_of_eq (List.length_reverse l))

theorem pyStrip_len_le (p : Char → Bool) (l : List Char) :
    (pyStrip p l).length ≤ l.length := by
  unfold pyStrip stripLeft
  exact Nat.le_trans (len_dropWhile_le p _) (len_stripRight_le p l)

theorem pyStrip_len_lt_of_head (p : Char → Bool) (c : Char) (t : List Char)
    (hc : p c = true) : (pyStrip p (c :: t)).length < (c :: t).length := by
  rcases stripRight_eq_or_len_lt p (c :: t) with h | h
  · unfold pyStrip stripLeft
    rw [h, List.dropWhile_cons, if_pos hc]
    exact Nat.lt_succ_of_le (len_dropWhile_le p t)
  · calc (pyStrip p (c :: t)).length
        ≤ (stripRight p (c :: t)).length := len_dropWhile_le p _
      _ < (c :: t).length := h

theorem pyStrip_len_lt_of_last (p : Char → Bool) (l : List Char) (c : Char)
    (hlast : l.getLast? = some c) (hc : p c = true) :
    (pyStrip p l).length < l.length := by
  have hrev : l.reverse.head? = some c := by
    rw [List.head?_reverse]
    exact hlast
  obtain ⟨rest, hr⟩ : ∃ rest, l.reverse = c :: rest := by
    cases hl : l.reverse with
    | nil => rw [hl] at hrev; cases hrev
    | cons d rest =>
        rw [hl] at hrev
        have hd : d = c := by simpa using hrev
        exact ⟨rest, by rw [hd]⟩
  have hlen : l.length = rest.length + 1 := by
    have := congrArg List.length hr
    simpa [List.length_reverse] using this
  have hsr : (stripRight p l).length ≤ rest.length := by
    unfold stripRight
    rw [List.length_reverse, hr, List.dropWhile_cons, if_pos hc]
    exact len_dropWhile_le p rest
  calc (pyStrip p l).length
      ≤ (stripRight p l).length := len_dropWhile_le p _
    _ ≤ rest.length := hsr
    _ < l.length := by rw [hlen]; exact Nat.lt_succ_self _

theorem natCompare_self (n : Nat) : natCompare n n = .eq := by
  simp [natCompare]

theorem vcompareZeros_replicate (k : Nat) :
    vcompareZeros (List.replicate k 0) = .eq := by
  induction k with
  | zero => rfl
  | succ n ih => simpa [vcompareZeros, natCompare] using ih

theorem vcompare_replicate_nil (k : Nat) :
    vcompare (List.replicate k 0) [] = .eq := by
  induction k with
  | zero => rfl
  | succ n ih => simpa [vcompare, natCompare] using ih

theorem confirmationAccepted_iff (reply : List Char) :
    confirmationAccepted reply = true ↔
      pyLower reply = ['y'] ∨ pyLower reply = [] := by
  simp [confirmationAccepted, List.contains]

/-! ### Claim theorems -/

/-- C4: check_update_available reports an update exactly when no installed
entry's name is string-equal to the available version's name; nothing else
about the versions (in particular no numeric component) influences the
result. -/
theorem check_update_available_iff_no_name_match
    (installed : List ProtonVersion) (available : ProtonVersion) :
    check_update_available installed available = true ↔
      ∀ v ∈ installed, v.name ≠ available.name := by
  induction installed with
  | nil => simp [check_update_available]
  | cons v rest ih =>
      by_cases h : v.name = available.name
      · simp [check_update_available, h]
      · simp [check_update_available, h, ih]

/-- C3: on installed entries {A, B, C} with available version named B, cleanup
removes every entry — including B, the one the spec says must be kept — because
the code compares the entry string against the whole ProtonVersion object
(always unequal), not against its name field. -/
theorem cleanup_old_versions_removes_kept_entry :
    cleanup_old_versions ["A", "B", "C"] ⟨"B", ""⟩ = (["A", "B", "C"], []) := by
  rfl

/-- C1: with target directory "/a/b", the archive entry "../bc/evil" resolves
to "/a/bc/evil" — outside the target directory — yet is_within_directory
accepts it, because os.path.commonprefix is a character-wise prefix and "/a/b"
is a character prefix of "/a/bc/evil"; safe_extract therefore proceeds to
write the entry instead of aborting with the traversal error. -/
theorem traversal_check_accepts_escaping_entry :
    abspath (pyJoin "/a/b".data "../bc/evil".data) = "/a/bc/evil".data
    ∧ resolvedWithinDir "/a/b".data (pyJoin "/a/b".data "../bc/evil".data) = false
    ∧ is_within_directory "/a/b".data (pyJoin "/a/b".data "../bc/evil".data) = true
    ∧ safe_extract ["../bc/evil".data] "/a/b".data = .ok ["/a/b/../bc/evil".data] :=
  ⟨by decide, by decide, by decide, rfl⟩

/-- C2: the exception the traversal check raises (a plain Exception), the
tarfile.ReadError of a corrupt archive and the OSError of a disk error all
escape the `except tarfile.ExtractError` handler: no partial directory and no
staged archive is removed for them; and the one exception the handler does
catch still falls through to the "Done, updated" success print. -/
theorem extract_failure_skips_rollback :
    (do_update_extract_phase (some .plainTraversalExc)).removedStagedArchive = false
    ∧ (do_update_extract_phase (some .plainTraversalExc)).removedPartialDir = false
    ∧ (do_update_extract_phase (some .plainTraversalExc)).uncaughtExc = some .plainTraversalExc
    ∧ (do_update_extract_phase (some .tarReadError)).removedStagedArchive = false
    ∧ (do_update_extract_phase (some .osError)).removedStagedArchive = false
    ∧ (do_update_extract_phase (some .tarExtractError)).printedDoneMessage = true := by
  decide

/-- C5 counterexample: on a run where a staged archive for the candidate's
name already exists with size matching the advertised content length, the
fetch stage nevertheless issues the download request. -/
theorem fetch_ignores_staged_archive_cex :
    FetchEvent.httpGet "http://u" ∈
      (fetch_update ⟨"GE-Proton9-27", "http://u"⟩ "/tmp" ⟨true, some 100⟩).1 := by
  decide

/-- C5 (amended): fetch_update never consults the staging directory — its
behaviour is identical whether or not an archive for the candidate's name is
already staged, and the download request is issued on every run. -/
theorem fetch_always_issues_request
    (version : ProtonVersion) (tmpdir : String) (env : FetchEnv) :
    FetchEvent.httpGet version.url ∈ (fetch_update version tmpdir env).1
    ∧ ∀ s₁ s₂ cl, fetch_update version tmpdir ⟨s₁, cl⟩ =
        fetch_update version tmpdir ⟨s₂, cl⟩ := by
  constructor
  · cases h : env.contentLength <;> simp [fetch_update, h]
  · intro s₁ s₂ cl
    cases cl <;> rfl

/-- C6 counterexample: on a response with no Content-length header, the fetch
stage raises "Could not get conent size" and writes nothing, instead of
downloading with indeterminate progress. -/
theorem fetch_missing_length_cex :
    (fetch_update ⟨"GE-Proton9-27", "http://u"⟩ "/tmp" ⟨false, none⟩).2
        = .error "Could not get conent size"
    ∧ (fetch_update ⟨"GE-Proton9-27", "http://u"⟩ "/tmp" ⟨false, none⟩).1
        = [.httpGet "http://u"] :=
  ⟨rfl, rfl⟩

/-- C6 (amended): whenever the response carries no Content-length header,
fetch_update fails with the "Could not get conent size" exception and the
archive is never written. -/
theorem fetch_missing_length_raises
    (version : ProtonVersion) (tmpdir : String) (staged : Bool) :
    (fetch_update version tmpdir ⟨staged, none⟩).2 = .error "Could not get conent size"
    ∧ ∀ p, FetchEvent.writeArchive p ∉ (fetch_update version tmpdir ⟨staged, none⟩).1 := by
  constructor
  · rfl
  · intro p hp
    simp [fetch_update] at hp

/-- C7: when the asset list contains no name with "tar.gz" (or is empty), the
locals `name`/`url` of get_latest are never assigned and the function dies
with UnboundLocalError — not with the intended "Failed to find tarball url"
feed error; a matching asset, by contrast, yields the stripped release name. -/
theorem get_latest_unbound_local_crash :
    get_latest [⟨"foo.zip", "http://example/foo.zip"⟩] = .error .unboundLocalError
    ∧ get_latest [] = .error .unboundLocalError
    ∧ get_latest [⟨"GE-Proton9-27.tar.gz", "http://u"⟩]
        = .ok ⟨"GE-Proton9-27", "http://u"⟩
    ∧ GetLatestExc.unboundLocalError ≠ GetLatestExc.failedToFindTarballUrl :=
  ⟨rfl, rfl, rfl, by decide⟩

/-- C8: vcompare is element-wise over the numeric components with missing
trailing elements comparing as 0, so appending trailing zero components to a
version leaves it equal (in both argument orders) to the original. -/
theorem vcompare_trailing_zeros (a : List Nat) (k : Nat) :
    vcompare a (a ++ List.replicate k 0) = .eq
    ∧ vcompare (a ++ List.replicate k 0) a = .eq := by
  induction a with
  | nil =>
      constructor
      · simpa [vcompare] using vcompareZeros_replicate k
      · simpa using vcompare_replicate_nil k
  | cons x xs ih =>
      constructor
      · simpa [vcompare, natCompare_self] using ih.1
      · simpa [vcompare, natCompare_self] using ih.2

/-- C9: do_update runs the download/unpack steps exactly when the lowercased
prompt reply is "y" or the empty string, and an empty reply (pressing return)
proceeds — every other reply performs neither step. -/
theorem confirmation_gates_fetch_and_unpack (reply : List Char) :
    ((UpdateStep.fetchStep ∈ do_update_steps_after_prompt reply ∨
        UpdateStep.unpackStep ∈ do_update_steps_after_prompt reply) ↔
      (pyLower reply = ['y'] ∨ pyLower reply = []))
    ∧ do_update_steps_after_prompt [] = [.fetchStep, .unpackStep] := by
  constructor
  · rw [← confirmationAccepted_iff]
    unfold do_update_steps_after_prompt
    by_cases h : confirmationAccepted reply <;> simp [h]
  · decide

/-- C10: for an asset name s ++ ".tar.gz", the release name the code computes
is s with all leading and trailing characters from the set {., t, a, r, g, z}
removed; in particular it differs from plain suffix removal (which would give
s) whenever s begins or ends with a character of that set. -/
theorem stripTarGz_of_archive_name (s : List Char) :
    stripTarGz (s ++ tarGzSuffix) = pyStrip inTarGzChars s
    ∧ (∀ c t, s = c :: t → inTarGzChars c = true →
        stripTarGz (s ++ tarGzSuffix) ≠ s)
    ∧ (∀ c, s.getLast? = some c → inTarGzChars c = true →
        stripTarGz (s ++ tarGzSuffix) ≠ s) := by
  have hsuf : ∀ x ∈ tarGzSuffix, inTarGzChars x = true := by decide
  have h1 : stripTarGz (s ++ tarGzSuffix) = pyStrip inTarGzChars s := by
    unfold stripTarGz pyStrip
    rw [stripRight_append_all _ _ _ hsuf]
  refine ⟨h1, ?_, ?_⟩
  · intro c t hs hc heq
    rw [h1, hs] at heq
    have hlt := pyStrip_len_lt_of_head inTarGzChars c t hc
    rw [heq] at hlt
    exact Nat.lt_irrefl _ hlt
  · intro c hlast hc heq
    rw [h1] at heq
    have hlt := pyStrip_len_lt_of_last inTarGzChars s c hlast hc
    rw [heq] at hlt
    exact Nat.lt_irrefl _ hlt

end Updater
